import Mathlib

/-!
Verification of the cellophane execution engine against its natural-language
specification.  The Python source is shallowly embedded in Lean: pure record
manipulation becomes Lean functions over explicit structures, raised
exceptions become Except / Option values, and the stateful objects
(checkpoint store, executor, dispatcher reference counts) become explicit
state-passing functions.
-/

namespace Cellophane

/-! ## Container values (the meta field)

The deep Container merge used by the meta merge rule lives in
util.merge_mappings, whose definition is not part of the sources at hand
(only callers and tests are).  Modelled from the spec: a Container value is
an ordered string-keyed mapping whose values are scalars, nested Containers
or ordered sequences; deep merge combines nested keys recursively and
concatenates ordered sequences; on a kind conflict the right value wins.
-/

inductive MetaVal where
  | scalar (s : String)
  | vlist (xs : List MetaVal)
  | vmap (kvs : List (String × MetaVal))

/-- Keys of a Container level, in insertion order. -/
def metaKeys (kvs : List (String × MetaVal)) : List String :=
  kvs.map Prod.fst

mutual

/-- Modelled from the spec: recursive deep merge of Container values
(util.merge_mappings, absent from the sources).  Shared keys merge
recursively, right-only keys are appended, sequences concatenate and scalar
or kind conflicts take the right value. -/
def mergeVal : MetaVal → MetaVal → MetaVal
  | .vmap a, .vmap b =>
      .vmap (mergeKvs a b ++ b.filter fun kv2 => a.all fun kv => kv.1 != kv2.1)
  | .vlist a, .vlist b => .vlist (a ++ b)
  | _, b => b
termination_by x _ => sizeOf x
decreasing_by
  simp only [MetaVal.vmap.sizeOf_spec]; omega

/-- Left-hand entries of a Container merge: every key of the left mapping in
order, its value merged with the first matching right-hand value if any. -/
def mergeKvs :
    List (String × MetaVal) → List (String × MetaVal) → List (String × MetaVal)
  | [], _ => []
  | (k, v) :: rest, b =>
    (match b.find? (fun kv2 => kv2.1 == k) with
     | some kv2 => (k, mergeVal v kv2.2)
     | none => (k, v)) :: mergeKvs rest b
termination_by l _ => sizeOf l
decreasing_by
  · simp only [List.cons.sizeOf_spec, Prod.mk.sizeOf_spec]; omega
  · simp only [List.cons.sizeOf_spec, Prod.mk.sizeOf_spec]; omega

end

/-! ## Merge rules registered on Sample (src/cellophane/src/data/samples.py)

Paths are modelled as strings.  The files merge is
`[*dict.fromkeys((*this, *that))]`: concatenation followed by removal of
later duplicates, keeping the first occurrence of each element. -/

/-- First-occurrence deduplication, the semantics of dict.fromkeys. -/
def pyDedup : List String → List String
  | [] => []
  | a :: as => a :: pyDedup (as.filter fun b => b != a)
termination_by l => l.length
decreasing_by
  exact Nat.lt_succ_of_le (List.length_filter_le _ _)

/-- Sample._merge_files: order-preserving union. -/
def mergeFiles (this that : List String) : List String :=
  pyDedup (this ++ that)

/-- Truthiness of a Python `str | None` value: None and the empty string are
falsy. -/
def strTruthy : Option String → Bool
  | none => false
  | some s => s != ""

/-- Sample._merge_fail: newline concatenation when both sides are truthy,
otherwise `this or that`. -/
def mergeFail (this that : Option String) : Option String :=
  if strTruthy this && strTruthy that then
    some ((this.getD "") ++ "\n" ++ (that.getD ""))
  else if strTruthy this then this else that

/-- Sample._merge_done: `this and that` on booleans. -/
def mergeProcessed (this that : Bool) : Bool :=
  this && that

/-! ## Sample (src/cellophane/src/data/samples.py)

The runtime class of a Sample (mixin-synthesised subclasses) is modelled by
a numeric tag `cls`; `a & b` compares classes before merging.  The `_fail`
attribute is called `fail` here (`failWith` is the `fail` method). -/

structure Sample where
  cls : Nat
  id : String
  files : List String
  processed : Bool
  uuid : Nat
  meta : MetaVal
  fail : Option String

inductive MergeSamplesErr where
  | typeErr
  | uuidErr
deriving Repr, DecidableEq

/-- Field iteration order of attrs fields_dict on the Sample class. -/
def sampleFields : List String :=
  ["id", "files", "processed", "uuid", "meta", "_fail"]

/-- Modelled from the spec: the Merger class is absent from the sources; the
spec describes it as a mapping from field name to the registered pure binary
merge function.  `setMergedField acc a b f` performs
`setattr(acc, f, merge(f, getattr(a, f), getattr(b, f)))` for the four
fields registered on the base Sample class. -/
def setMergedField (acc a b : Sample) : String → Sample := fun f =>
  if f = "files" then { acc with files := mergeFiles a.files b.files }
  else if f = "processed" then
    { acc with processed := mergeProcessed a.processed b.processed }
  else if f = "meta" then { acc with meta := mergeVal a.meta b.meta }
  else if f = "_fail" then { acc with fail := mergeFail a.fail b.fail }
  else acc

/-- Sample.__and__: class check, then uuid check, then a deep copy of self
updated field by field through the merge registry, skipping id and uuid. -/
def sampleAnd (a b : Sample) : Except MergeSamplesErr Sample :=
  if a.cls ≠ b.cls then .error .typeErr
  else if a.uuid ≠ b.uuid then .error .uuidErr
  else .ok
    ((sampleFields.filter fun f => f ∉ ["id", "uuid"]).foldl
      (fun acc f => setMergedField acc a b f) a)

/-- Sample.fail(reason): overwrite the private fail attribute. -/
def Sample.failWith (s : Sample) (reason : String) : Sample :=
  { s with fail := some reason }

/-- Sample.failed property: the fail reason if set (truthy), otherwise the
fixed string when the sample is unprocessed, otherwise falsy (none). -/
def Sample.failedProp (s : Sample) : Option String :=
  if strTruthy s.fail then s.fail
  else if s.processed then none
  else some "Sample was not processed"

/-- Truthiness of the Sample.failed property. -/
def Sample.failedTruthy (s : Sample) : Bool :=
  (s.failedProp).isSome

/-! ## Output and OutputGlob records (src/src/cellophane/data/output.py)

attrs `@define` generates `__eq__` over every field; the classes override
only `__hash__` ((src, dst) for Output, (src, dst_dir, dst_name) for
OutputGlob, consistent with the generated equality).  A Python set keeps an
incoming element exactly when no equal element is already present, so the
outputs set is modelled as an equality-deduplicated list. -/

structure Output where
  src : String
  dst : String
  checkpoint : String
  optional : Bool
deriving Repr, DecidableEq

structure OutputGlob where
  src : String
  dstDir : Option String
  dstName : Option String
  checkpoint : String
  optional : Bool
deriving Repr, DecidableEq

/-- An element of the Samples.output set: Output or OutputGlob. -/
inductive OutEntry where
  | out (o : Output)
  | glob (g : OutputGlob)
deriving Repr, DecidableEq

/-- Output.__hash__: hash((self.src, self.dst)). -/
def Output.pyHash (o : Output) : String × String :=
  (o.src, o.dst)

/-- OutputGlob.__hash__: hash((self.src, self.dst_dir, self.dst_name)). -/
def OutputGlob.pyHash (g : OutputGlob) : String × Option String × Option String :=
  (g.src, g.dstDir, g.dstName)

/-- Python set insertion: the element is dropped when an equal element
(full attrs field equality) is already present. -/
def pySetInsert (s : List OutEntry) (x : OutEntry) : List OutEntry :=
  if x ∈ s then s else s ++ [x]

/-- Python set union (Samples._merge_output: `this | that`). -/
def pySetUnion (s t : List OutEntry) : List OutEntry :=
  t.foldl pySetInsert s

/-! ## Samples collection (src/cellophane/src/data/samples.py) -/

structure SamplesC where
  cls : Nat
  data : List Sample
  output : List OutEntry

/-- UUIDs of the samples, in order. -/
def SamplesC.uuids (s : SamplesC) : List Nat :=
  s.data.map Sample.uuid

/-- Samples._merge_data: every sample of the left list, replaced by its
merge with the first right-hand sample of the same uuid when one exists.
A raised element merge propagates as an error. -/
def mergeData (this that : List Sample) : Except MergeSamplesErr (List Sample) :=
  this.mapM fun a =>
    if (that.map Sample.uuid).contains a.uuid then
      match that.find? (fun b => b.uuid == a.uuid) with
      | some b => sampleAnd a b
      | none => .ok a
    else .ok a

/-- Samples.__and__: class check, then the registered collection merges,
data via _merge_data and output via _merge_output (set union). -/
def samplesAnd (x y : SamplesC) : Except MergeSamplesErr SamplesC :=
  if x.cls ≠ y.cls then .error .typeErr
  else
    match mergeData x.data y.data with
    | .error e => .error e
    | .ok d => .ok { cls := x.cls, data := d, output := pySetUnion x.output y.output }

/-- The field-wise merge image of two samples of equal class and uuid (the
payload sampleAnd returns on success). -/
def mergedSample (a b : Sample) : Sample :=
  { cls := a.cls, id := a.id,
    files := mergeFiles a.files b.files,
    processed := mergeProcessed a.processed b.processed,
    uuid := a.uuid,
    meta := mergeVal a.meta b.meta,
    fail := mergeFail a.fail b.fail }

/-- What _merge_data does to a single left-hand sample: merged with the
first uuid match of the right list, or passed through. -/
def samplesMergeImage (that : List Sample) (a : Sample) : Sample :=
  match that.find? (fun b => b.uuid == a.uuid) with
  | some b => mergedSample a b
  | none => a

/-- Samples.__setitem__ with a UUID key: replace the first sample holding
that uuid, or append when the uuid is absent. -/
def replaceFirstByUuid : List Sample → Sample → List Sample
  | [], s => [s]
  | t :: rest, s =>
    if t.uuid == s.uuid then s :: rest else t :: replaceFirstByUuid rest s

/-- Samples.__or__ on the data lists: every right-hand sample is written
into a copy of the left list keyed by uuid. -/
def pyOrData (x : List Sample) (y : List Sample) : List Sample :=
  y.foldl replaceFirstByUuid x

/-! ## Derived slices of a Samples collection

complete and failed follow the properties in samples.py; the unprocessed
slice belongs to the newer Samples class that is absent from the sources.
Modelled from the spec: Samples.unprocessed holds the samples that are not
yet processed and not failed (the slice the engine fails with
"Sample was not processed", which must not overwrite contextual reasons). -/

def completeSlice (data : List Sample) : List Sample :=
  data.filter fun s => !s.failedTruthy

def failedSlice (data : List Sample) : List Sample :=
  data.filter fun s => s.failedTruthy

def unprocessedSlice (data : List Sample) : List Sample :=
  data.filter fun s => !s.processed && s.fail.isNone

/-! ## Runner failure handling (src/src/cellophane/modules/runner_.py)

Runner.__call__ wraps the user main function; its outcome is one of: a
normal return (None, a Samples value, or an unexpected value), a
cooperative interrupt (InterruptWorker), SystemExit, or any other
exception.  The contextual fail reasons are built exactly as the source
builds them.  A single quote character is assembled from its code point. -/

def sq : String :=
  String.singleton (Char.ofNat 39)

/-- Fail reason used on InterruptWorker (runner_.py line 136). -/
def reasonInterrupted (name : String) : String :=
  "Runner " ++ sq ++ name ++ sq ++ " interrupted"

/-- Fail reason used on SystemExit (runner_.py lines 143-148); the code
suffix appears only when the exit code is not None. -/
def reasonExited (name : String) (code : Option Int) : String :=
  "Runner " ++ sq ++ name ++ sq ++ " exitded with non-zero status" ++
    (match code with
     | some c => "(" ++ toString c ++ ")"
     | none => "")

/-- Fail reason used on any other exception (runner_.py line 152). -/
def reasonUnhandled (name : String) (rep : String) : String :=
  "Unhandled exception in runner " ++ sq ++ name ++ sq ++ " " ++ rep

/-- The reason the specification text claims for a cooperative interrupt. -/
def specReasonInterrupted (name : String) : String :=
  "Runner " ++ sq ++ name ++ sq ++ " was interrupted"

/-- The reason the specification text claims for SystemExit(code). -/
def specReasonExited (name : String) (code : Int) : String :=
  "Runner " ++ sq ++ name ++ sq ++ " exited with non-zero status(" ++
    toString code ++ ")"

/-- The reason the specification text claims for any other exception. -/
def specReasonUnhandled (name : String) (rep : String) : String :=
  "Unhandled exception in runner " ++ sq ++ name ++ sq ++ ": " ++ rep

/-- Outcome of the user main call inside Runner.__call__. -/
inductive MainOutcome where
  | normal (ret : Option (List Sample))
  | unexpected
  | interrupt
  | sysExit (code : Option Int)
  | exc (rep : String)

/-- Result of one runner invocation: its samples, the declared outputs and
whether Executor.terminate was called. -/
structure RunnerOut where
  data : List Sample
  output : List OutEntry
  executorTerminated : Bool

/-- The _cleanup helper: terminate the executor, clear the declared outputs
and fail every sample with the contextual reason. -/
def runnerCleanup (data : List Sample) (reason : String) :
    List Sample × List OutEntry × Bool :=
  (data.map fun s => s.failWith reason, [], true)

/-- The _resolve_outputs helper: every OutputGlob is removed from the set;
when the complete slice is nonempty the glob resolution (parameter res,
a filesystem glob) is unioned in. -/
def resolveOutputs (res : OutputGlob → List Output) (data : List Sample)
    (out : List OutEntry) : List OutEntry :=
  out.foldl
    (fun acc e =>
      match e with
      | .out _ => acc
      | .glob g =>
        let acc2 := acc.erase e
        if (completeSlice data).isEmpty then acc2
        else pySetUnion acc2 ((res g).map OutEntry.out))
    out

/-- Runner.__call__ after the per-runner pre-hooks: run main, handle the
four outcomes, resolve declared outputs, fail still-unprocessed samples.
The executor context manager terminates the executor on exit in every
path; the failure paths additionally terminate it inside _cleanup. -/
def runnerCall (name : String) (outcome : MainOutcome)
    (res : OutputGlob → List Output) (samples : SamplesC) : RunnerOut :=
  let afterMain : List Sample × List OutEntry × Bool :=
    match outcome with
    | .normal ret =>
      let d := match ret with
        | some l => l
        | none => samples.data
      (d.map fun s => { s with processed := true }, samples.output, true)
    | .unexpected =>
      (samples.data.map fun s => { s with processed := true },
        samples.output, true)
    | .interrupt => runnerCleanup samples.data (reasonInterrupted name)
    | .sysExit code => runnerCleanup samples.data (reasonExited name code)
    | .exc rep => runnerCleanup samples.data (reasonUnhandled name rep)
  let d := afterMain.1
  let out := resolveOutputs res d afterMain.2.1
  let d2 := d.map fun s =>
    if !s.processed && s.fail.isNone then s.failWith "Sample was not processed"
    else s
  { data := d2, output := out, executorTerminated := afterMain.2.2 }

/-! ## Checkpoint store (src/src/cellophane/modules/checkpoint.py)

The per-path xxh3_64 fingerprint of (dumped args/kwargs, label, path name,
size, mtime truncated to seconds) is modelled as the tuple itself, an
idealisation in which the hash is collision free.  A missing path
contributes eight random bytes, modelled as a distinguished constructor
carrying a nonce so that it never equals a stat fingerprint. -/

structure FileStat where
  size : Nat
  mtimeSec : Nat
deriving Repr, DecidableEq

/-- The filesystem: an association of paths to stat results. -/
def FileSys : Type :=
  List (String × FileStat)

def statOf (fs : FileSys) (p : String) : Option FileStat :=
  (fs.find? fun e => e.1 == p).map Prod.snd

/-- path.name: the final component of the path. -/
def pathName (p : String) : String :=
  (p.splitOn "/").getLastD p

inductive PHash where
  | statH (argsKw : String) (label : String) (name : String)
      (size : Nat) (mtime : Nat)
  | randH (path : String) (nonce : Nat)
deriving Repr, DecidableEq

structure Checkpoint where
  label : String
  samplesFiles : List String
  outputs : List OutEntry
  extraPaths : List String
  cache : Option (List (String × PHash))

/-- Checkpoint._paths: the extra paths, all sample files, and the source of
every declared Output whose checkpoint equals the label (a set; OutputGlob
sources would require a filesystem glob and are elided here). -/
def trackedPaths (c : Checkpoint) : List String :=
  pyDedup
    (c.extraPaths ++ c.samplesFiles ++
      c.outputs.filterMap fun e =>
        match e with
        | .out o => if o.checkpoint = c.label then some o.src else none
        | .glob _ => none)

/-- The per-path fingerprint: args/kwargs, label, name, size and truncated
mtime when the path exists, random bytes otherwise. -/
def hashOne (c : Checkpoint) (fs : FileSys) (argsKw : String) (nonce : Nat)
    (p : String) : PHash :=
  match statOf fs p with
  | some st => .statH argsKw c.label (pathName p) st.size st.mtimeSec
  | none => .randH p nonce

/-- Checkpoint._hash: one (path, fingerprint) pair per tracked path. -/
def freshHashes (c : Checkpoint) (fs : FileSys) (argsKw : String)
    (nonce : Nat) : List (String × PHash) :=
  (trackedPaths c).map fun p => (p, hashOne c fs argsKw nonce p)

/-- Checkpoint.store: persist the fresh fingerprints. -/
def Checkpoint.store (c : Checkpoint) (fs : FileSys) (argsKw : String)
    (nonce : Nat) : Checkpoint :=
  { c with cache := some (freshHashes c fs argsKw nonce) }

def lookupHash (m : List (String × PHash)) (k : String) : Option PHash :=
  (m.find? fun e => e.1 == k).map Prod.snd

/-- Checkpoint.check: a persisted map exists, its key set equals the
current tracked path set, and every fresh fingerprint equals the persisted
one. -/
def Checkpoint.check (c : Checkpoint) (fs : FileSys) (argsKw : String)
    (nonce : Nat) : Bool :=
  match c.cache with
  | none => false
  | some m =>
    (m.all fun e => (trackedPaths c).contains e.1) &&
    ((trackedPaths c).all fun p => m.any fun e => e.1 == p) &&
    ((freshHashes c fs argsKw nonce).all fun fh =>
      lookupHash m fh.1 == some fh.2)

/-! ## Executor job bookkeeping (src/src/cellophane/executors/executor.py)

submit inserts the job uuid into _locks and _pools and refuses a uuid
already present; wait deletes the uuid from both after the job lock is
released.  The two dictionaries are inserted and deleted together, so the
pending set is modelled as a single uuid list. -/

structure ExecState where
  pending : List Nat

/-- Executor.submit restricted to its uuid bookkeeping: raises
ExecutorSubmitException when the uuid is already pending. -/
def ExecState.submit (st : ExecState) (uuid : Nat) :
    Except String ExecState :=
  if uuid ∈ st.pending then .error "Job with this UUID is already submitted."
  else .ok { pending := st.pending ++ [uuid] }

/-- Executor.wait(uuid): after the job lock is acquired and released the
uuid is removed from _locks and _pools. -/
def ExecState.waitOn (st : ExecState) (uuid : Nat) : ExecState :=
  { pending := st.pending.erase uuid }

/-- A sequence of submissions. -/
def submitAll (st : ExecState) (uuids : List Nat) : Except String ExecState :=
  uuids.foldlM ExecState.submit st

/-! ## Per-sample post-hook reference counting
(src/src/cellophane/modules/dispatcher.py _start_runners and
_runner_callback)

_start_runners increments sample_runner_count[uuid] for every sample of
every submitted subset; each runner callback decrements the count for every
uuid of the runner result and schedules the per-sample post-hooks when the
count reaches zero.  Submissions and callbacks are modelled as atomic
events; the dispatcher thread and the callback threads interleave them. -/

structure RCState where
  counts : Nat → Int
  fired : List Nat

def rcIncOne (st : RCState) (u : Nat) : RCState :=
  { st with counts := fun v => if v = u then st.counts v + 1 else st.counts v }

/-- One decrement step of _runner_callback: when the count reaches zero the
per-sample post-hook for that uuid fires. -/
def rcDecOne (st : RCState) (u : Nat) : RCState :=
  { counts := fun v => if v = u then st.counts v - 1 else st.counts v,
    fired := if st.counts u - 1 = 0 then st.fired ++ [u] else st.fired }

/-- The submission loop body: increment the count of every subset uuid. -/
def rcSubmit (st : RCState) (js : List Nat) : RCState :=
  js.foldl rcIncOne st

/-- The callback body: decrement every uuid of the runner result. -/
def rcCallback (st : RCState) (js : List Nat) : RCState :=
  js.foldl rcDecOne st

/-- An interleaving event: a runner submission or a runner callback. -/
inductive RunnerEv where
  | sub (js : List Nat)
  | cb (js : List Nat)

def rcStep (st : RCState) : RunnerEv → RCState
  | .sub js => rcSubmit st js
  | .cb js => rcCallback st js

/-- Run a schedule of submissions and callbacks from zero counts. -/
def rcRun (tr : List RunnerEv) : RCState :=
  tr.foldl rcStep { counts := fun _ => 0, fired := [] }

/-- Number of per-sample post-hook invocations for uuid u. -/
def rcFireCount (tr : List RunnerEv) (u : Nat) : Nat :=
  (rcRun tr).fired.count u

/-! ## Hook condition gating

Two code paths run pre/post hooks: the dispatcher path
(_run_pre_post_hooks in src/src/cellophane/modules/dispatcher.py, used for
per-session hooks) and the per-runner path (run_hooks in
src/src/cellophane/modules/hook.py, called from Runner.__call__).  Hook
bodies are modelled as pure functions on the sample list; exception
handling inside the loops is not exercised by the gating claims. -/

inductive HookWhen where
  | pre
  | post
deriving Repr, DecidableEq

inductive HookPer where
  | session
  | sample
  | runner
deriving Repr, DecidableEq

inductive HookCond where
  | always
  | unprocessed
  | complete
  | failed
deriving Repr, DecidableEq

structure HookD where
  name : String
  hwhen : HookWhen
  per : HookPer
  condition : HookCond
  func : List Sample → List Sample

/-- The dispatcher condition match (_run_pre_post_hooks lines 160-170):
none means the hook is skipped (continue), otherwise the subset the hook is
invoked on.  The walrus in each failed guard still binds hook_samples, so
an always hook with nonempty samples falls through every case with the
whole set bound, and an unprocessed hook with an empty input is invoked on
the empty set. -/
def dispatcherGate (samples_ : List Sample) : HookCond → Option (List Sample)
  | .always => some samples_
  | .unprocessed =>
    if samples_.length = 0 then some samples_
    else if (unprocessedSlice samples_).isEmpty then none
    else some (unprocessedSlice samples_)
  | .complete =>
    if (completeSlice samples_).isEmpty then none else some (completeSlice samples_)
  | .failed =>
    if (failedSlice samples_).isEmpty then none else some (failedSlice samples_)

/-- One iteration of the _run_pre_post_hooks loop: gate, invoke, and merge
the returned samples back with the union rule.  The first component is the
invocation record (hook name and the subset it saw). -/
def dispatchHookStep (samples_ : List Sample) (h : HookD) :
    Option (String × List Sample) × List Sample :=
  match dispatcherGate samples_ h.condition with
  | none => (none, samples_)
  | some sub => (some (h.name, sub), pyOrData samples_ (h.func sub))

/-- _run_pre_post_hooks: filter by (when, per), fold the loop body, and
collect the invocation records. -/
def runPrePostHooksD (hooks : List HookD) (w : HookWhen) (p : HookPer)
    (samples : List Sample) : List (String × List Sample) × List Sample :=
  (hooks.filter fun h => h.hwhen == w && h.per == p).foldl
    (fun acc h =>
      let st := dispatchHookStep acc.2 h
      (acc.1 ++ st.1.toList, st.2))
    ([], samples)

/-- One iteration of the run_hooks loop (hook.py lines 427-446): a pre hook
is invoked unconditionally on the threaded samples; a post hook is gated on
the slices of the ORIGINAL samples argument. -/
def runHooksStepR (samples samples_ : List Sample) (h : HookD) :
    Option (String × List Sample) × List Sample :=
  if h.hwhen == .pre then (some (h.name, samples_), h.func samples_)
  else
    match h.condition with
    | .always => (some (h.name, samples_), h.func samples_)
    | .complete =>
      if (completeSlice samples).isEmpty then (none, samples_)
      else
        (some (h.name, completeSlice samples),
          pyOrData (h.func (completeSlice samples)) (failedSlice samples_))
    | .failed =>
      if (failedSlice samples).isEmpty then (none, samples_)
      else
        (some (h.name, failedSlice samples),
          pyOrData (h.func (failedSlice samples)) (completeSlice samples_))
    | .unprocessed => (none, samples_)

/-- run_hooks: filter by (when, per) and fold the loop body over a deep
copy of the input. -/
def runHooksR (hooks : List HookD) (w : HookWhen) (p : HookPer)
    (samples : List Sample) : List (String × List Sample) × List Sample :=
  (hooks.filter fun h => h.hwhen == w && h.per == p).foldl
    (fun acc h =>
      let st := runHooksStepR samples acc.2 h
      (acc.1 ++ st.1.toList, st.2))
    ([], samples)

/-! ## Hook dependency resolution
(src/src/cellophane/modules/hook.py and src/src/cellophane/modules/deps.py)

The _flag enumeration combines phase bits (PRE/POST), position bits
(BEFORE/AFTER/ACTION) and stage bits; the combinations that occur are
modelled as an inductive.  The recursive helper functions before() and
after() of hook.py have no memoisation and no base case for a hook whose
(normalised) before and after lists are both empty: before() then calls
after() on the same hook, which calls before() again.  Python exhausts the
recursion limit (RecursionError); the embedding makes the call depth
explicit with a fuel parameter, fuel exhaustion standing for
RecursionError. -/

inductive Phase5 where
  | pre
  | post
deriving Repr, DecidableEq

inductive StageT where
  | allT
  | samplesInit
  | filesInit
  | outputInit
  | outputTransfered
  | notificationsInit
  | notificationsSent
deriving Repr, DecidableEq

inductive ActionT where
  | addsSamples
  | removesSamples
  | modifiesSamples
  | addsFiles
  | removesFiles
  | modifiesFiles
  | addsOutputs
  | removesOutputs
  | modifiesOutputs
  | transfersOutputs
  | modifiesNotifications
  | sendsNotifications
deriving Repr, DecidableEq

inductive FKind where
  | beforeK
  | afterK
deriving Repr, DecidableEq

/-- The _flag values that occur in hook dependency handling: a stage marker
phase|BEFORE/AFTER|stage, an action entry phase|ACTION|action, or a bare
stage flag as exported in the `stage` container. -/
inductive Flag5 where
  | marker (ph : Phase5) (k : FKind) (st : StageT)
  | act (ph : Phase5) (a : ActionT)
  | rawStage (st : StageT)
deriving Repr, DecidableEq

/-- `_flag.ALL in f`: the ALL bit is set. -/
def Flag5.hasALL : Flag5 → Bool
  | .marker _ _ .allT => true
  | .rawStage .allT => true
  | _ => false

/-- Phase bits of a combined flag (a bare stage flag has none; such a value
is never passed to next/previous in the modelled paths). -/
def Flag5.phaseOf : Flag5 → Phase5
  | .marker ph _ _ => ph
  | .act ph _ => ph
  | .rawStage _ => .pre

def Flag5.isAction : Flag5 → Bool
  | .act _ _ => true
  | _ => false

/-- _flag.order(): each flag mapped to its predecessor, in declaration
order (deps.py lines 40-95). -/
def flagOrder : List (Flag5 × Option Flag5) :=
  [(.marker .pre .beforeK .allT, none),
   (.marker .pre .beforeK .samplesInit, some (.marker .pre .beforeK .allT)),
   (.act .pre .addsSamples, some (.marker .pre .beforeK .samplesInit)),
   (.act .pre .removesSamples, some (.act .pre .addsSamples)),
   (.act .pre .modifiesSamples, some (.act .pre .removesSamples)),
   (.marker .pre .afterK .samplesInit, some (.act .pre .modifiesSamples)),
   (.marker .pre .beforeK .notificationsInit,
     some (.marker .pre .afterK .samplesInit)),
   (.act .pre .modifiesNotifications,
     some (.marker .pre .beforeK .notificationsInit)),
   (.marker .pre .afterK .notificationsInit,
     some (.act .pre .modifiesNotifications)),
   (.marker .pre .beforeK .notificationsSent,
     some (.marker .pre .afterK .notificationsInit)),
   (.act .pre .sendsNotifications,
     some (.marker .pre .beforeK .notificationsSent)),
   (.marker .pre .afterK .notificationsSent,
     some (.act .pre .sendsNotifications)),
   (.marker .pre .beforeK .filesInit,
     some (.marker .pre .afterK .notificationsSent)),
   (.act .pre .addsFiles, some (.marker .pre .beforeK .filesInit)),
   (.act .pre .removesFiles, some (.act .pre .addsFiles)),
   (.act .pre .modifiesFiles, some (.act .pre .removesFiles)),
   (.marker .pre .afterK .filesInit, some (.act .pre .modifiesFiles)),
   (.marker .pre .beforeK .outputInit, some (.marker .pre .afterK .filesInit)),
   (.act .pre .addsOutputs, some (.marker .pre .beforeK .outputInit)),
   (.act .pre .removesOutputs, some (.act .pre .addsOutputs)),
   (.act .pre .modifiesOutputs, some (.act .pre .removesOutputs)),
   (.marker .pre .afterK .outputInit, some (.act .pre .modifiesOutputs)),
   (.marker .pre .afterK .allT, some (.marker .pre .afterK .outputInit)),
   (.marker .post .beforeK .allT, none),
   (.marker .post .beforeK .outputInit, some (.marker .post .beforeK .allT)),
   (.act .post .addsOutputs, some (.marker .post .beforeK .outputInit)),
   (.act .post .removesOutputs, some (.act .post .addsOutputs)),
   (.act .post .modifiesOutputs, some (.act .post .removesOutputs)),
   (.marker .post .afterK .outputInit, some (.act .post .modifiesOutputs)),
   (.marker .post .beforeK .outputTransfered,
     some (.marker .post .afterK .outputInit)),
   (.act .post .transfersOutputs,
     some (.marker .post .beforeK .outputTransfered)),
   (.marker .post .afterK .outputTransfered,
     some (.act .post .transfersOutputs)),
   (.marker .post .beforeK .notificationsInit,
     some (.marker .post .afterK .outputTransfered)),
   (.act .post .modifiesNotifications,
     some (.marker .post .beforeK .notificationsInit)),
   (.marker .post .afterK .notificationsInit,
     some (.act .post .modifiesNotifications)),
   (.marker .post .beforeK .notificationsSent,
     some (.marker .post .afterK .notificationsInit)),
   (.act .post .sendsNotifications,
     some (.marker .post .beforeK .notificationsSent)),
   (.marker .post .afterK .notificationsSent,
     some (.act .post .sendsNotifications)),
   (.marker .post .afterK .allT, some (.marker .post .afterK .notificationsSent))]

/-- _flag.inverse_order() lookup. -/
def inverseGet (f : Flag5) : Option Flag5 :=
  (flagOrder.find? fun e => e.2 == some f).map Prod.fst

/-- _flag.order() lookup (None entries flattened away). -/
def orderGet (f : Flag5) : Option Flag5 :=
  ((flagOrder.find? fun e => e.1 == f).map Prod.snd).bind id

/-- Position of a flag in the order, used by the comparison operators. -/
def orderIndex (f : Flag5) : Nat :=
  ((flagOrder.map Prod.fst).indexOf? f).getD 0

def nextFlagAux : Nat → Phase5 → Flag5 → Flag5
  | 0, _, cur => cur
  | fuel+1, ph, cur =>
    let nxt := (inverseGet cur).getD (.marker ph .afterK .allT)
    if nxt.isAction then nextFlagAux fuel ph nxt else nxt

/-- _flag.next(): the successor in the order, skipping action entries. -/
def Flag5.next (f : Flag5) : Flag5 :=
  nextFlagAux (flagOrder.length + 1) f.phaseOf f

def previousFlagAux : Nat → Phase5 → Flag5 → Flag5
  | 0, _, cur => cur
  | fuel+1, ph, cur =>
    let prv := (orderGet cur).getD (.marker ph .beforeK .allT)
    if prv.isAction then previousFlagAux fuel ph prv else prv

/-- _flag.previous(): the predecessor in the order, skipping actions. -/
def Flag5.previous (f : Flag5) : Flag5 :=
  previousFlagAux (flagOrder.length + 1) f.phaseOf f

/-- max() over a flag set, ordered by position in the order. -/
def maxFlagBy : List Flag5 → Option Flag5 :=
  List.foldl
    (fun acc f =>
      match acc with
      | none => some f
      | some g => if orderIndex g < orderIndex f then some f else some g)
    none

/-- min() over a flag set, ordered by position in the order. -/
def minFlagBy : List Flag5 → Option Flag5 :=
  List.foldl
    (fun acc f =>
      match acc with
      | none => some f
      | some g => if orderIndex f < orderIndex g then some f else some g)
    none

/-- A hook dependency: a hook name or a flag. -/
inductive Dep5 where
  | nm (s : String)
  | fl (f : Flag5)
deriving Repr, DecidableEq

/-- A hook as seen by the resolver. -/
structure Hook5 where
  name : String
  before : List Dep5
  after : List Dep5
deriving Repr, DecidableEq

inductive ResolveErr where
  | recursionErr
  | valueErr
  | cycleErr
deriving Repr, DecidableEq

/-- _get_hook_by_name. -/
def getHookByName (s : String) (hooks : List Hook5) : Option Hook5 :=
  hooks.find? fun h => h.name == s

/-- Python set insertion for flags. -/
def insFlag (l : List Flag5) (f : Flag5) : List Flag5 :=
  if f ∈ l then l else l ++ [f]

def unionFlags (l m : List Flag5) : List Flag5 :=
  m.foldl insFlag l

/-- Python set insertion for names. -/
def insStr (l : List String) (s : String) : List String :=
  if s ∈ l then l else l ++ [s]

def unionStrs (l m : List String) : List String :=
  m.foldl insStr l

mutual

/-- hook.py before(hook, hooks): accumulate the non-ALL flags and the
transitively named hooks of the before list; when both are empty, fall
back to one step past the maximal after() flag.  The fuel counts Python
stack frames; 0 is RecursionError. -/
def beforeF : Nat → Hook5 → List Hook5 → Except ResolveErr (List Flag5 × List String)
  | 0, _, _ => .error .recursionErr
  | fuel+1, hook, hooks => do
    let r ← beforeLoop fuel hook.before hooks ([], [])
    if r.1.isEmpty && r.2.isEmpty then do
      let a ← afterF fuel hook hooks
      if !a.1.isEmpty || !a.2.isEmpty then
        match maxFlagBy a.1 with
        | some mx => pure (insFlag r.1 mx.next, r.2)
        | none => .error .valueErr
      else pure r
    else pure r

/-- The for-loop of before(): flags with the ALL bit are ignored, names
resolve through _get_hook_by_name and recurse. -/
def beforeLoop : Nat → List Dep5 → List Hook5 → List Flag5 × List String →
    Except ResolveErr (List Flag5 × List String)
  | _, [], _, acc => .ok acc
  | fuel, d :: rest, hooks, acc => do
    let acc2 ←
      match d with
      | .fl f =>
        if !f.hasALL then pure (insFlag acc.1 f, acc.2) else pure acc
      | .nm s =>
        match getHookByName s hooks with
        | none => pure acc
        | some h2 => do
          let accN := (acc.1, insStr acc.2 s)
          let b ← beforeF fuel h2 hooks
          if !b.1.isEmpty || !b.2.isEmpty then
            pure (unionFlags accN.1 b.1, unionStrs accN.2 b.2)
          else pure accN
    beforeLoop fuel rest hooks acc2

/-- hook.py after(hook, hooks), the mirror image; the fallback guard only
checks that the flag set is empty. -/
def afterF : Nat → Hook5 → List Hook5 → Except ResolveErr (List Flag5 × List String)
  | 0, _, _ => .error .recursionErr
  | fuel+1, hook, hooks => do
    let r ← afterLoop fuel hook.after hooks ([], [])
    if r.1.isEmpty then do
      let b ← beforeF fuel hook hooks
      if !b.1.isEmpty || !b.2.isEmpty then
        match minFlagBy b.1 with
        | some mn => pure (insFlag r.1 mn.previous, r.2)
        | none => .error .valueErr
      else pure r
    else pure r

/-- The for-loop of after(). -/
def afterLoop : Nat → List Dep5 → List Hook5 → List Flag5 × List String →
    Except ResolveErr (List Flag5 × List String)
  | _, [], _, acc => .ok acc
  | fuel, d :: rest, hooks, acc => do
    let acc2 ←
      match d with
      | .fl f =>
        if !f.hasALL then pure (insFlag acc.1 f, acc.2) else pure acc
      | .nm s =>
        match getHookByName s hooks with
        | none => pure acc
        | some h2 => do
          let accN := (acc.1, insStr acc.2 s)
          let a ← afterF fuel h2 hooks
          if !a.1.isEmpty || !a.2.isEmpty then
            pure (unionFlags accN.1 a.1, unionStrs accN.2 a.2)
          else pure accN
    afterLoop fuel rest hooks acc2

end

/-- Python set union of dependency lists, as in _insert_neighbor_stages. -/
def unionDeps (l m : List Dep5) : List Dep5 :=
  m.foldl (fun acc d => if d ∈ acc then acc else acc ++ [d]) l

/-- hook.py _insert_neighbor_stages: extend every hook's before/after lists
with the computed neighbour flags and transitive names. -/
def insertNeighborStagesF (fuel : Nat) (hooks : List Hook5) :
    Except ResolveErr (List Hook5) :=
  hooks.mapM fun h => do
    let b ← beforeF fuel h hooks
    let a ← afterF fuel h hooks
    pure
      { h with
        before := unionDeps h.before (b.1.map Dep5.fl ++ b.2.map Dep5.nm),
        after := unionDeps h.after (a.1.map Dep5.fl ++ a.2.map Dep5.nm) }

/-- Nodes of the dependency graph: flags and hook names. -/
inductive Node5 where
  | flagN (f : Flag5)
  | nameN (s : String)
deriving Repr, DecidableEq

def depNode : Dep5 → Node5
  | .fl f => .flagN f
  | .nm s => .nameN s

/-- _flag.graph(): the internal stage order as predecessor sets. -/
def flagGraph : List (Node5 × List Node5) :=
  flagOrder.filterMap fun e =>
    match e.2 with
    | some p => some (.flagN e.1, [.flagN p])
    | none => none

def gAdd (g : List (Node5 × List Node5)) (n : Node5) :
    List (Node5 × List Node5) :=
  if g.any (fun e => e.1 == n) then g else g ++ [(n, [])]

def gAddPred (g : List (Node5 × List Node5)) (n p : Node5) :
    List (Node5 × List Node5) :=
  g.map fun e =>
    if e.1 == n then (e.1, if p ∈ e.2 then e.2 else e.2 ++ [p]) else e

/-- Graph construction of resolve_dependencies lines 355-371. -/
def buildGraph (hooks : List Hook5) : List (Node5 × List Node5) :=
  hooks.foldl
    (fun g h =>
      let g1 := gAdd g (.nameN h.name)
      let g2 := h.after.foldl
        (fun g d => gAddPred g (.nameN h.name) (depNode d)) g1
      h.before.foldl
        (fun g d => gAddPred (gAdd g (depNode d)) (depNode d) (.nameN h.name))
        g2)
    flagGraph

/-- Nodes that occur only as predecessors become explicit zero-predecessor
nodes, as TopologicalSorter does. -/
def normalizeGraph (g : List (Node5 × List Node5)) :
    List (Node5 × List Node5) :=
  (g.foldl (fun acc e => acc ++ e.2) []).foldl gAdd g

/-- Kahn rounds of TopologicalSorter.static_order: emit the ready batch in
node order, a stuck nonempty remainder is a CycleError. -/
def topoF : Nat → List (Node5 × List Node5) → List Node5 →
    Except ResolveErr (List Node5)
  | 0, remaining, acc => if remaining.isEmpty then .ok acc else .error .cycleErr
  | fuel+1, remaining, acc =>
    if remaining.isEmpty then .ok acc
    else
      let ready := remaining.filter fun e =>
        e.2.all fun p => !remaining.any fun e2 => e2.1 == p
      if ready.isEmpty then .error .cycleErr
      else
        topoF fuel (remaining.filter fun e => !ready.any fun r => r.1 == e.1)
          (acc ++ ready.map Prod.fst)

/-- Stable sort of the hooks by position of their name in the topological
order (resolve_dependencies line 374). -/
def sortHooksBy (order : List Node5) (hooks : List Hook5) : List Hook5 :=
  hooks.mergeSort fun h1 h2 =>
    ((order.indexOf? (.nameN h1.name)).getD 0) ≤
      ((order.indexOf? (.nameN h2.name)).getD 0)

/-- resolve_dependencies: neighbour-stage insertion, graph construction,
topological sort, hook reordering.  Fuel bounds the Python recursion depth
of the neighbour-stage helpers. -/
def resolveDependenciesF (fuel : Nat) (hooks : List Hook5) :
    Except ResolveErr (List Hook5) := do
  let hooks2 ← insertNeighborStagesF fuel hooks
  let g := normalizeGraph (buildGraph hooks2)
  let order ← topoF (g.length + 1) g []
  .ok (sortHooksBy order hooks2)

/-- Hook.__init__ dependency normalisation (_update_before_after): the
match cascade, fuelled (each Python recursive call is one fuel unit; the
cascade always terminates, so any sufficiently large fuel is exact). -/
def updateBAF : Nat → List Dep5 → List Dep5 → Phase5 →
    Except ResolveErr (List Dep5 × List Dep5)
  | 0, _, _, _ => .error .recursionErr
  | fuel+1, b, a, ph =>
    if b.isEmpty && a.isEmpty then .ok ([], [])
    else if b.head? == some (.nm "all") then
      updateBAF fuel (.fl (.rawStage .allT) :: b.tail) a ph
    else if b.getLast? == some (.nm "all") then
      updateBAF fuel (.fl (.rawStage .allT) :: b.dropLast) a ph
    else if a.head? == some (.nm "all") then
      updateBAF fuel b (a.tail ++ [.fl (.rawStage .allT)]) ph
    else if a.getLast? == some (.nm "all") then
      updateBAF fuel b (a.dropLast ++ [.fl (.rawStage .allT)]) ph
    else
      match b with
      | .fl (.rawStage st) :: brest =>
        updateBAF fuel (.fl (.marker ph .beforeK st) :: brest) a ph
      | _ =>
        match a with
        | .fl (.rawStage st) :: arest =>
          updateBAF fuel b (arest ++ [.fl (.marker ph .afterK st)]) ph
        | _ =>
          if .fl (.marker ph .beforeK .allT) ∉ b ++ a then
            updateBAF fuel b (a ++ [.fl (.marker ph .beforeK .allT)]) ph
          else if .fl (.marker ph .afterK .allT) ∉ b ++ a then
            updateBAF fuel (b ++ [.fl (.marker ph .afterK .allT)]) a ph
          else .ok (b, a)

/-- A hook with no declared dependencies, after normalisation: the
(None, None) case yields empty before and after lists. -/
def defaultHook5 : Hook5 :=
  { name := "h", before := [], after := [] }

/-! ## Concrete values used by witnesses -/

def wS1 : Sample :=
  { cls := 0, id := "a", files := [], processed := false, uuid := 1,
    meta := .vmap [], fail := none }

def wS2 : Sample :=
  { cls := 0, id := "a2", files := ["f"], processed := true, uuid := 1,
    meta := .vmap [], fail := none }

def wS3 : Sample :=
  { cls := 0, id := "b", files := [], processed := false, uuid := 2,
    meta := .vmap [], fail := none }

def wX : SamplesC :=
  { cls := 0, data := [wS1], output := [] }

def wY : SamplesC :=
  { cls := 0, data := [wS2, wS3], output := [] }

/-- Two Output values with the same (src, dst) identity key but different
checkpoint fields. -/
def cO1 : Output :=
  { src := "s", dst := "d", checkpoint := "main", optional := false }

def cO2 : Output :=
  { src := "s", dst := "d", checkpoint := "x", optional := false }

/-- A concrete checkpoint tracking two sample files. -/
def wCp : Checkpoint :=
  { label := "main", samplesFiles := ["d/f1", "d/f2"], outputs := [],
    extraPaths := [], cache := none }

/-- A filesystem where both tracked paths exist. -/
def wFs : FileSys :=
  [("d/f1", { size := 10, mtimeSec := 100 }),
   ("d/f2", { size := 20, mtimeSec := 200 })]

/-- The same filesystem after the size of d/f2 changed. -/
def wFs2 : FileSys :=
  [("d/f1", { size := 10, mtimeSec := 100 }),
   ("d/f2", { size := 21, mtimeSec := 200 })]

/-- A glob resolver that matches nothing. -/
def noRes : OutputGlob → List Output := fun _ => []

/-- A one-sample collection entering a runner. -/
def wRun : SamplesC :=
  { cls := 0, data := [wS1], output := [] }

/-- A processed, unfailed sample. -/
def wProc : Sample :=
  { cls := 0, id := "p", files := [], processed := true, uuid := 3,
    meta := .vmap [], fail := none }

/-- A pre-hook with condition unprocessed whose body is the identity. -/
def hU : HookD :=
  { name := "hU", hwhen := .pre, per := .runner, condition := .unprocessed,
    func := id }

end Cellophane

/-! ## Properties of the files merge rule -/

namespace Cellophane

lemma pyDedup_nil : pyDedup [] = [] := by
  simp [pyDedup]

lemma pyDedup_cons (a : String) (as : List String) :
    pyDedup (a :: as) = a :: pyDedup (as.filter fun b => b != a) := by
  simp [pyDedup]

lemma filter_swap (p q : String → Bool) (l : List String) :
    (l.filter q).filter p = (l.filter p).filter q := by
  rw [List.filter_filter, List.filter_filter]
  exact List.filter_congr fun a _ => Bool.and_comm _ _

lemma filter_bne_of_false (p : String → Bool) (a : String) (h : p a = false)
    (l : List String) : (l.filter p).filter (fun b => b != a) = l.filter p := by
  apply List.filter_eq_self.mpr
  intro x hx
  have hpx := (List.mem_filter.mp hx).2
  have hxa : x ≠ a := by
    intro hcontra
    rw [hcontra, h] at hpx
    exact Bool.false_ne_true hpx
  exact bne_iff_ne.mpr hxa

lemma filter_bne_self (a : String) (l : List String) :
    (l.filter fun b => b != a).filter (fun b => b != a) =
      l.filter fun b => b != a := by
  apply List.filter_eq_self.mpr
  intro x hx
  exact (List.mem_filter.mp hx).2

lemma pyDedup_filter (l : List String) :
    ∀ p : String → Bool, (pyDedup l).filter p = pyDedup (l.filter p) := by
  induction l using pyDedup.induct with
  | case1 => intro p; simp [pyDedup_nil]
  | case2 a as ih =>
    intro p
    rw [pyDedup_cons]
    cases hpa : p a with
    | true =>
      simp only [List.filter_cons, hpa, ite_true]
      rw [pyDedup_cons, ih p, filter_swap]
    | false =>
      simp only [List.filter_cons, hpa, Bool.false_eq_true, ite_false]
      rw [ih p, filter_swap, filter_bne_of_false p a hpa]

lemma pyDedup_append_left (l : List String) :
    ∀ m : List String, pyDedup (pyDedup l ++ m) = pyDedup (l ++ m) := by
  induction l using pyDedup.induct with
  | case1 => intro m; simp [pyDedup_nil]
  | case2 a as ih =>
    intro m
    rw [pyDedup_cons, List.cons_append, pyDedup_cons, List.cons_append,
      pyDedup_cons, List.filter_append, List.filter_append,
      pyDedup_filter, filter_bne_self, ih]

lemma pyDedup_idem (l : List String) : pyDedup (pyDedup l) = pyDedup l := by
  have h := pyDedup_append_left l []
  simpa using h

lemma pyDedup_append_right (l : List String) :
    ∀ m : List String, pyDedup (l ++ pyDedup m) = pyDedup (l ++ m) := by
  induction l using pyDedup.induct with
  | case1 => intro m; simpa using pyDedup_idem m
  | case2 a as ih =>
    intro m
    rw [List.cons_append, pyDedup_cons, List.filter_append, pyDedup_filter,
      List.cons_append, pyDedup_cons, List.filter_append, ih]

lemma mergeFiles_assoc (x y z : List String) :
    mergeFiles (mergeFiles x y) z = mergeFiles x (mergeFiles y z) := by
  unfold mergeFiles
  rw [pyDedup_append_left, pyDedup_append_right, List.append_assoc]

lemma mem_pyDedup (l : List String) : ∀ x : String, x ∈ pyDedup l ↔ x ∈ l := by
  induction l using pyDedup.induct with
  | case1 => intro x; simp [pyDedup_nil]
  | case2 a as ih =>
    intro x
    rw [pyDedup_cons]
    by_cases hxa : x = a
    · subst hxa; simp
    · simp only [List.mem_cons, ih, List.mem_filter, hxa, false_or,
        bne_iff_ne, ne_eq, not_false_eq_true, and_true]

lemma mergeFiles_mem_comm (x y : List String) (a : String) :
    a ∈ mergeFiles x y ↔ a ∈ mergeFiles y x := by
  unfold mergeFiles
  rw [mem_pyDedup, mem_pyDedup, List.mem_append, List.mem_append]
  exact Or.comm

end Cellophane

/-! ## Properties of the fail_reason and meta merge rules -/

namespace Cellophane

lemma strTruthy_none : strTruthy none = false := rfl

lemma strTruthy_concat (a b : String) :
    strTruthy (some (a ++ ("\n" ++ b))) = true := by
  simp only [strTruthy, bne_iff_ne, ne_eq]
  intro h
  have hlen := congrArg String.length h
  simp [String.length_append] at hlen
  exact absurd hlen.2.1 (by decide)

lemma mergeFail_assoc (x y z : Option String) :
    mergeFail (mergeFail x y) z = mergeFail x (mergeFail y z) := by
  unfold mergeFail
  cases hx : strTruthy x <;> cases hy : strTruthy y <;> cases hz : strTruthy z <;>
    simp [hx, hy, hz, strTruthy_concat, String.append_assoc]

lemma mergeFail_comm_of_none (y : Option String)
    (hy : y = none ∨ strTruthy y = true) :
    mergeFail none y = mergeFail y none := by
  cases hy with
  | inl h => subst h; simp [mergeFail, strTruthy_none]
  | inr h => simp [mergeFail, strTruthy_none, h]

/-- Key disjointness of two Container levels. -/
def keysDisjoint (a b : List (String × MetaVal)) : Prop :=
  ∀ k ∈ metaKeys a, k ∉ metaKeys b

lemma mergeKvs_of_disjoint (a b : List (String × MetaVal))
    (h : keysDisjoint a b) : mergeKvs a b = a := by
  induction a with
  | nil => simp [mergeKvs]
  | cons kv rest ih =>
    obtain ⟨k, v⟩ := kv
    have hk : k ∉ metaKeys b := h k (by simp [metaKeys])
    have hfind : b.find? (fun kv2 => kv2.1 == k) = none := by
      rw [List.find?_eq_none]
      intro kv2 hkv2
      simp only [beq_iff_eq]
      intro heq
      exact hk (heq ▸ List.mem_map_of_mem Prod.fst hkv2)
    rw [mergeKvs, hfind]
    have hrest : keysDisjoint rest b := by
      intro k2 hk2
      exact h k2 (by simp [metaKeys] at hk2 ⊢; exact Or.inr hk2)
    rw [ih hrest]

lemma filter_of_disjoint (a b : List (String × MetaVal))
    (h : keysDisjoint a b) :
    (b.filter fun kv2 => a.all fun kv => kv.1 != kv2.1) = b := by
  apply List.filter_eq_self.mpr
  intro kv2 hkv2
  rw [List.all_eq_true]
  intro kv hkv
  have h1 : kv.1 ∉ metaKeys b := h kv.1 (List.mem_map_of_mem Prod.fst hkv)
  have h2 : kv2.1 ∈ metaKeys b := List.mem_map_of_mem Prod.fst hkv2
  apply bne_iff_ne.mpr
  intro heq
  exact h1 (heq ▸ h2)

lemma mergeVal_vmap_of_disjoint (a b : List (String × MetaVal))
    (h : keysDisjoint a b) :
    mergeVal (.vmap a) (.vmap b) = .vmap (a ++ b) := by
  rw [mergeVal, mergeKvs_of_disjoint a b h, filter_of_disjoint a b h]

lemma keysDisjoint_append_left (a b c : List (String × MetaVal))
    (hac : keysDisjoint a c) (hbc : keysDisjoint b c) :
    keysDisjoint (a ++ b) c := by
  intro k hk
  simp only [metaKeys, List.map_append, List.mem_append] at hk
  cases hk with
  | inl h => exact hac k h
  | inr h => exact hbc k h

lemma keysDisjoint_append_right (a b c : List (String × MetaVal))
    (hab : keysDisjoint a b) (hac : keysDisjoint a c) :
    keysDisjoint a (b ++ c) := by
  intro k hk
  simp only [metaKeys, List.map_append, List.mem_append]
  rintro (h | h)
  · exact hab k hk h
  · exact hac k hk h

lemma mergeVal_vmap_assoc_of_disjoint (a b c : List (String × MetaVal))
    (hab : keysDisjoint a b) (hbc : keysDisjoint b c)
    (hac : keysDisjoint a c) :
    mergeVal (mergeVal (.vmap a) (.vmap b)) (.vmap c) =
      mergeVal (.vmap a) (mergeVal (.vmap b) (.vmap c)) := by
  rw [mergeVal_vmap_of_disjoint a b hab, mergeVal_vmap_of_disjoint b c hbc,
    mergeVal_vmap_of_disjoint (a ++ b) c (keysDisjoint_append_left a b c hac hbc),
    mergeVal_vmap_of_disjoint a (b ++ c) (keysDisjoint_append_right a b c hab hac),
    List.append_assoc]

lemma mergeVal_vlist_assoc (a b c : List MetaVal) :
    mergeVal (mergeVal (.vlist a) (.vlist b)) (.vlist c) =
      mergeVal (.vlist a) (mergeVal (.vlist b) (.vlist c)) := by
  simp [mergeVal, List.append_assoc]

end Cellophane

/-! ## Claim C1: Sample merge -/

namespace Cellophane

lemma sampleAnd_ok (a b : Sample) (hc : a.cls = b.cls) (hu : a.uuid = b.uuid) :
    sampleAnd a b = .ok
      { cls := a.cls, id := a.id,
        files := mergeFiles a.files b.files,
        processed := mergeProcessed a.processed b.processed,
        uuid := a.uuid,
        meta := mergeVal a.meta b.meta,
        fail := mergeFail a.fail b.fail } := by
  unfold sampleAnd
  rw [if_neg (by simp [hc]), if_neg (by simp [hu])]
  rfl

/-- C1: for Samples of the same class and uuid, `a & b` succeeds and every
field registered in the merge registry (every field except id and uuid)
equals the registered merge function applied to the two field values,
while id and uuid carry over from the left operand; differing classes
raise MergeSamplesTypeError and equal classes with differing uuids raise
MergeSamplesUUIDError.  The source copies self before the field loop, so
neither operand is mutated (inherent in the pure embedding). -/
theorem claim_C1 (a b : Sample) :
    (a.cls = b.cls → a.uuid = b.uuid →
      sampleAnd a b = .ok
        { cls := a.cls, id := a.id,
          files := mergeFiles a.files b.files,
          processed := mergeProcessed a.processed b.processed,
          uuid := a.uuid,
          meta := mergeVal a.meta b.meta,
          fail := mergeFail a.fail b.fail }) ∧
    (a.cls ≠ b.cls → sampleAnd a b = .error .typeErr) ∧
    (a.cls = b.cls → a.uuid ≠ b.uuid → sampleAnd a b = .error .uuidErr) := by
  refine ⟨fun hc hu => sampleAnd_ok a b hc hu, fun hc => ?_, fun hc hu => ?_⟩
  · unfold sampleAnd
    rw [if_pos hc]
  · unfold sampleAnd
    rw [if_neg (by simp [hc]), if_pos hu]

/-- C1 witness: the merge evaluated on two concrete samples sharing class
and uuid. -/
theorem claim_C1_witness :
    sampleAnd
      { cls := 0, id := "a", files := ["f1"], processed := true, uuid := 7,
        meta := .vmap [("k", .scalar "1")], fail := none }
      { cls := 0, id := "a", files := ["f2"], processed := true, uuid := 7,
        meta := .vmap [("l", .scalar "2")], fail := some "x" } = .ok
      { cls := 0, id := "a",
        files := mergeFiles ["f1"] ["f2"],
        processed := mergeProcessed true true,
        uuid := 7,
        meta := mergeVal (.vmap [("k", .scalar "1")]) (.vmap [("l", .scalar "2")]),
        fail := mergeFail none (some "x") } :=
  (claim_C1
    { cls := 0, id := "a", files := ["f1"], processed := true, uuid := 7,
      meta := .vmap [("k", .scalar "1")], fail := none }
    { cls := 0, id := "a", files := ["f2"], processed := true, uuid := 7,
      meta := .vmap [("l", .scalar "2")], fail := some "x" }).1 rfl rfl

end Cellophane

/-! ## Claim C2: merge rule algebra -/

namespace Cellophane

lemma mergeProcessed_assoc (x y z : Bool) :
    mergeProcessed (mergeProcessed x y) z = mergeProcessed x (mergeProcessed y z) := by
  simp [mergeProcessed, Bool.and_assoc]

lemma mergeProcessed_comm (x y : Bool) :
    mergeProcessed x y = mergeProcessed y x := by
  simp [mergeProcessed, Bool.and_comm]

/-- C2 counterexample: the files merge rule is not commutative; on the
singleton lists the two orders give differently ordered results, refuting
the claim that every default merge rule is commutative. -/
theorem claim_C2_cx :
    mergeFiles ["a"] ["b"] = ["a", "b"] ∧
    mergeFiles ["b"] ["a"] = ["b", "a"] ∧
    mergeFiles ["a"] ["b"] ≠ mergeFiles ["b"] ["a"] := by
  have h1 : mergeFiles ["a"] ["b"] = ["a", "b"] := by
    simp [mergeFiles, pyDedup_cons, pyDedup_nil, List.filter]
  have h2 : mergeFiles ["b"] ["a"] = ["b", "a"] := by
    simp [mergeFiles, pyDedup_cons, pyDedup_nil, List.filter]
  refine ⟨h1, h2, ?_⟩
  rw [h1, h2]
  simp

/-- C2 amended: every default per-field merge rule is associative on its
data (files and fail_reason always, processed always, and the modelled meta
merge for concatenated sequences, right-biased scalars, and mappings with
pairwise disjoint key sets); commutativity holds for processed, for files
only up to membership, and for fail_reason only when a side is null and the
other is null or truthy. -/
theorem claim_C2 :
    (∀ x y z : List String,
      mergeFiles (mergeFiles x y) z = mergeFiles x (mergeFiles y z)) ∧
    (∀ (x y : List String) (a : String),
      a ∈ mergeFiles x y ↔ a ∈ mergeFiles y x) ∧
    (∀ x y z : Option String,
      mergeFail (mergeFail x y) z = mergeFail x (mergeFail y z)) ∧
    (∀ y : Option String, (y = none ∨ strTruthy y = true) →
      mergeFail none y = mergeFail y none) ∧
    (∀ x y z : Bool,
      mergeProcessed (mergeProcessed x y) z =
        mergeProcessed x (mergeProcessed y z)) ∧
    (∀ x y : Bool, mergeProcessed x y = mergeProcessed y x) ∧
    (∀ a b c : List (String × MetaVal),
      keysDisjoint a b → keysDisjoint b c → keysDisjoint a c →
      mergeVal (mergeVal (.vmap a) (.vmap b)) (.vmap c) =
        mergeVal (.vmap a) (mergeVal (.vmap b) (.vmap c))) ∧
    (∀ a b c : List MetaVal,
      mergeVal (mergeVal (.vlist a) (.vlist b)) (.vlist c) =
        mergeVal (.vlist a) (mergeVal (.vlist b) (.vlist c))) ∧
    (∀ s t u : String,
      mergeVal (mergeVal (.scalar s) (.scalar t)) (.scalar u) =
        mergeVal (.scalar s) (mergeVal (.scalar t) (.scalar u))) :=
  ⟨mergeFiles_assoc, mergeFiles_mem_comm, mergeFail_assoc,
    mergeFail_comm_of_none, mergeProcessed_assoc, mergeProcessed_comm,
    mergeVal_vmap_assoc_of_disjoint, mergeVal_vlist_assoc,
    fun s t u => by simp [mergeVal]⟩

/-- C2 witness: the conditional parts of the amended claim instantiated at
concrete inputs, hypotheses discharged by computation. -/
theorem claim_C2_witness :
    mergeFail none (some "x") = mergeFail (some "x") none ∧
    mergeVal
      (mergeVal (.vmap [("a", .scalar "1")]) (.vmap [("b", .scalar "2")]))
      (.vmap [("c", .scalar "3")]) =
    mergeVal (.vmap [("a", .scalar "1")])
      (mergeVal (.vmap [("b", .scalar "2")]) (.vmap [("c", .scalar "3")])) :=
  ⟨claim_C2.2.2.2.1 (some "x") (Or.inr (by decide)),
    claim_C2.2.2.2.2.2.2.1 [("a", .scalar "1")] [("b", .scalar "2")]
      [("c", .scalar "3")] (by simp [keysDisjoint, metaKeys])
      (by simp [keysDisjoint, metaKeys]) (by simp [keysDisjoint, metaKeys])⟩

end Cellophane

/-! ## Claim C10: Samples collection merge -/

namespace Cellophane

lemma mapM_ok_of (f : Sample → Except MergeSamplesErr Sample)
    (g : Sample → Sample) (l : List Sample)
    (h : ∀ a ∈ l, f a = .ok (g a)) : l.mapM f = .ok (l.map g) := by
  induction l with
  | nil => rfl
  | cons a l ih =>
    rw [List.mapM_cons, h a (List.mem_cons_self a l),
      ih fun a2 ha2 => h a2 (List.mem_cons_of_mem a ha2)]
    rfl

lemma samplesMergeImage_uuid (that : List Sample) (a : Sample) :
    (samplesMergeImage that a).uuid = a.uuid := by
  unfold samplesMergeImage
  cases that.find? (fun b => b.uuid == a.uuid) with
  | none => rfl
  | some b => rfl

lemma mergeData_ok (x y : List Sample)
    (hcls : ∀ a ∈ x, ∀ b, y.find? (fun s => s.uuid == a.uuid) = some b →
      b.cls = a.cls) :
    mergeData x y = .ok (x.map (samplesMergeImage y)) := by
  unfold mergeData
  apply mapM_ok_of
  intro a ha
  unfold samplesMergeImage
  by_cases hmem : a.uuid ∈ y.map Sample.uuid
  · have hex : ∃ b ∈ y, (b.uuid == a.uuid) = true := by
      obtain ⟨b, hb, hbu⟩ := List.mem_map.mp hmem
      exact ⟨b, hb, by simp [hbu]⟩
    have hsome : (y.find? (fun s => s.uuid == a.uuid)).isSome :=
      List.find?_isSome.mpr hex
    obtain ⟨b, hb⟩ := Option.isSome_iff_exists.mp hsome
    rw [if_pos (by simpa using hmem), hb]
    have huuid : b.uuid = a.uuid := by
      have := List.find?_some hb
      simpa using this
    exact sampleAnd_ok a b (hcls a ha b hb).symm huuid.symm
  · have hnone : y.find? (fun s => s.uuid == a.uuid) = none := by
      rw [List.find?_eq_none]
      intro b hb
      simp only [beq_iff_eq]
      intro hbu
      exact hmem (hbu ▸ List.mem_map_of_mem Sample.uuid hb)
    rw [if_neg (by simpa using hmem), hnone]

/-- C10: for two Samples collections of the same class whose uuid-matched
sample pairs also share their sample class, `a & b` succeeds; the result
has exactly the uuid sequence of `a`, each sample of `a` with a uuid match
in `b` replaced by the field-wise merge with the first such match, samples
without a match passed through, and any uuid present only in `b` absent
from the result. -/
theorem claim_C10 (x y : SamplesC) (hc : x.cls = y.cls)
    (hcls : ∀ a ∈ x.data, ∀ b,
      y.data.find? (fun s => s.uuid == a.uuid) = some b → b.cls = a.cls) :
    ∃ r, samplesAnd x y = .ok r ∧
      r.data = x.data.map (samplesMergeImage y.data) ∧
      r.uuids = x.uuids ∧
      (∀ b ∈ y.data, b.uuid ∉ x.uuids → b.uuid ∉ r.uuids) := by
  have hmd := mergeData_ok x.data y.data hcls
  refine ⟨{ cls := x.cls, data := x.data.map (samplesMergeImage y.data),
            output := pySetUnion x.output y.output }, ?_, rfl, ?_, ?_⟩
  · unfold samplesAnd
    rw [if_neg (by simp [hc]), hmd]
  · show (x.data.map (samplesMergeImage y.data)).map Sample.uuid =
      x.data.map Sample.uuid
    rw [List.map_map]
    exact List.map_congr_left fun a _ =>
      samplesMergeImage_uuid y.data a
  · intro b _ hnotin
    show b.uuid ∉ (x.data.map (samplesMergeImage y.data)).map Sample.uuid
    rw [List.map_map]
    intro hmem
    apply hnotin
    obtain ⟨a, ha, hau⟩ := List.mem_map.mp hmem
    have : (samplesMergeImage y.data a).uuid = a.uuid :=
      samplesMergeImage_uuid y.data a
    exact List.mem_map.mpr ⟨a, ha, by simpa [this] using hau⟩

end Cellophane

namespace Cellophane

/-- C10 witness: the collection merge evaluated at concrete samples, the
class hypotheses discharged by computation. -/
theorem claim_C10_witness :
    ∃ r, samplesAnd wX wY = .ok r ∧
      r.data = wX.data.map (samplesMergeImage wY.data) ∧
      r.uuids = wX.uuids ∧
      (∀ b ∈ wY.data, b.uuid ∉ wX.uuids → b.uuid ∉ r.uuids) :=
  claim_C10 wX wY rfl (by
    intro a ha b hb
    simp only [wX, wY, List.mem_singleton] at ha
    subst ha
    simp only [wS1, wS2, wS3, List.find?] at hb
    simp only [show ((1 : Nat) == 1) = true from rfl, Bool.true_eq] at hb
    cases hb
    rfl)

end Cellophane

/-! ## Claim C7: the outputs set -/

namespace Cellophane

/-- C7 counterexample: two Output values with equal (src, dst) hash key but
different checkpoint fields are kept as two distinct elements of the
outputs set, because attrs-generated equality compares every field; the
set is therefore not deduplicated by the (src, dst) identity key alone. -/
theorem claim_C7_cx :
    pySetInsert (pySetInsert [] (.out cO1)) (.out cO2) =
      [.out cO1, .out cO2] ∧
    cO1.pyHash = cO2.pyHash ∧ cO1 ≠ cO2 := by
  refine ⟨by decide, by decide, by decide⟩

/-- C7 amended: the outputs collection deduplicates by full structural
(attrs field) equality: inserting a value equal to a present element leaves
the set unchanged, inserting a value equal to no present element appends
it, and membership after insertion is membership before or equality; the
(src, dst) and (src, dst_dir, dst_name) tuples are only the hash keys and
do not by themselves collapse elements. -/
theorem claim_C7 (s : List OutEntry) (x : OutEntry) :
    ((∃ y ∈ s, y = x) → pySetInsert s x = s) ∧
    ((∀ y ∈ s, y ≠ x) → pySetInsert s x = s ++ [x]) ∧
    (∀ y : OutEntry, y ∈ pySetInsert s x ↔ y ∈ s ∨ y = x) := by
  refine ⟨fun hex => ?_, fun hall => ?_, fun y => ?_⟩
  · unfold pySetInsert
    rw [if_pos]
    obtain ⟨y, hy, hyx⟩ := hex
    exact hyx ▸ hy
  · unfold pySetInsert
    rw [if_neg]
    intro hx
    exact hall x hx rfl
  · unfold pySetInsert
    by_cases hx : x ∈ s
    · rw [if_pos hx]
      constructor
      · exact Or.inl
      · rintro (h | h)
        · exact h
        · exact h ▸ hx
    · rw [if_neg hx]
      simp [List.mem_append]

/-- C7 witness: both conditional parts evaluated at concrete outputs. -/
theorem claim_C7_witness :
    pySetInsert [.out cO1] (.out cO1) = [.out cO1] ∧
    pySetInsert [.out cO1] (.out cO2) = [.out cO1, .out cO2] :=
  ⟨(claim_C7 [.out cO1] (.out cO1)).1 ⟨.out cO1, by decide, rfl⟩,
    (claim_C7 [.out cO1] (.out cO2)).2.1 (by decide)⟩

end Cellophane

/-! ## Claim C9: executor uuid reuse -/

namespace Cellophane

/-- C9: any number of successive submissions with distinct fresh uuids all
succeed; submitting a uuid that is still pending raises
ExecutorSubmitException instead of scheduling; after wait(uuid) removes the
uuid, the same uuid may be submitted again. -/
theorem claim_C9 :
    (∀ (st : ExecState) (us : List Nat), us.Nodup →
      (∀ u ∈ us, u ∉ st.pending) →
      submitAll st us = .ok { pending := st.pending ++ us }) ∧
    (∀ (st : ExecState) (u : Nat), u ∈ st.pending →
      st.submit u = .error "Job with this UUID is already submitted.") ∧
    (∀ (st : ExecState) (u : Nat), st.pending.Nodup →
      (st.waitOn u).submit u =
        .ok { pending := st.pending.erase u ++ [u] }) := by
  refine ⟨?_, ?_, ?_⟩
  · intro st us
    induction us generalizing st with
    | nil =>
      intro _ _
      show Except.ok st = _
      cases st
      simp
    | cons u us ih =>
      intro hnd hfresh
      have hsub : st.submit u = .ok { pending := st.pending ++ [u] } := by
        unfold ExecState.submit
        rw [if_neg (hfresh u (List.mem_cons_self u us))]
      show (st.submit u).bind _ = _
      rw [hsub]
      have hres := ih { pending := st.pending ++ [u] }
        (List.Nodup.of_cons hnd)
        (by
          intro v hv
          simp only [List.mem_append, List.mem_singleton]
          rintro (h | h)
          · exact hfresh v (List.mem_cons_of_mem u hv) h
          · exact (List.nodup_cons.mp hnd).1 (h ▸ hv))
      show submitAll _ us = _
      rw [hres]
      simp
  · intro st u hu
    unfold ExecState.submit
    rw [if_pos hu]
  · intro st u hnd
    unfold ExecState.submit ExecState.waitOn
    rw [if_neg]
    intro hmem
    exact ((List.Nodup.mem_erase_iff hnd).mp hmem).1 rfl

/-- C9 witness: a fresh two-job submission, a duplicate rejection, and a
resubmission after wait, at concrete uuids. -/
theorem claim_C9_witness :
    submitAll { pending := [] } [1, 2] = .ok { pending := [1, 2] } ∧
    ExecState.submit { pending := [1, 2] } 1 =
      .error "Job with this UUID is already submitted." ∧
    (ExecState.waitOn { pending := [1, 2] } 1).submit 1 =
      .ok { pending := [2, 1] } :=
  ⟨claim_C9.1 { pending := [] } [1, 2] (by decide) (by decide),
    claim_C9.2.1 { pending := [1, 2] } 1 (by decide),
    claim_C9.2.2 { pending := [1, 2] } 1 (by decide)⟩

end Cellophane

/-! ## Claim C4: checkpoint idempotence -/

namespace Cellophane

lemma lookup_map_self (f : String → PHash) (l : List String) (p : String)
    (hp : p ∈ l) :
    lookupHash (l.map fun q => (q, f q)) p = some (f p) := by
  induction l with
  | nil => cases hp
  | cons q l ih =>
    simp only [List.map_cons]
    unfold lookupHash
    rw [List.find?_cons]
    cases hqp : ((q, f q).1 == p) with
    | true =>
      have : q = p := by simpa using hqp
      subst this
      rfl
    | false =>
      have hne : q ≠ p := by simpa using hqp
      have hp2 : p ∈ l := by
        cases List.mem_cons.mp hp with
        | inl h => exact absurd h.symm hne
        | inr h => exact h
      exact ih hp2

lemma store_cache (c : Checkpoint) (fs : FileSys) (argsKw : String) (n : Nat) :
    (c.store fs argsKw n).cache = some (freshHashes c fs argsKw n) := rfl

lemma trackedPaths_store (c : Checkpoint) (fs : FileSys) (argsKw : String)
    (n : Nat) : trackedPaths (c.store fs argsKw n) = trackedPaths c := rfl

lemma check_iff (c : Checkpoint) (fs : FileSys) (argsKw : String) (n : Nat)
    (m : List (String × PHash)) (hm : c.cache = some m) :
    (c.check fs argsKw n = true ↔
      ((∀ e ∈ m, e.1 ∈ trackedPaths c) ∧
       (∀ p ∈ trackedPaths c, ∃ e ∈ m, e.1 = p) ∧
       (∀ fh ∈ freshHashes c fs argsKw n,
         lookupHash m fh.1 = some fh.2))) := by
  unfold Checkpoint.check
  rw [hm]
  rw [Bool.and_eq_true, Bool.and_eq_true]
  rw [List.all_eq_true, List.all_eq_true, List.all_eq_true]
  constructor
  · rintro ⟨⟨h1, h2⟩, h3⟩
    refine ⟨fun e he => ?_, fun p hp => ?_, fun fh hfh => ?_⟩
    · simpa using h1 e he
    · obtain ⟨e, he, hep⟩ := List.any_eq_true.mp (h2 p hp)
      exact ⟨e, he, by simpa using hep⟩
    · have := h3 fh hfh
      simpa using this
  · rintro ⟨h1, h2, h3⟩
    refine ⟨⟨fun e he => ?_, fun p hp => ?_⟩, fun fh hfh => ?_⟩
    · simpa using h1 e he
    · obtain ⟨e, he, hep⟩ := h2 p hp
      exact List.any_eq_true.mpr ⟨e, he, by simpa using hep⟩
    · simpa using h3 fh hfh

lemma store_check_true (c : Checkpoint) (fs : FileSys) (argsKw : String)
    (n1 n2 : Nat)
    (hex : ∀ p ∈ trackedPaths c, (statOf fs p).isSome) :
    (c.store fs argsKw n1).check fs argsKw n2 = true := by
  rw [check_iff (c.store fs argsKw n1) fs argsKw n2
    (freshHashes c fs argsKw n1) (store_cache c fs argsKw n1)]
  rw [trackedPaths_store]
  refine ⟨fun e he => ?_, fun p hp => ?_, fun fh hfh => ?_⟩
  · obtain ⟨p, hp, hpe⟩ := List.mem_map.mp he
    exact hpe ▸ hp
  · exact ⟨(p, hashOne c fs argsKw n1 p),
      List.mem_map_of_mem _ hp, rfl⟩
  · obtain ⟨p, hp, hpe⟩ := List.mem_map.mp hfh
    subst hpe
    show lookupHash (freshHashes (c.store fs argsKw n1) fs argsKw n1) p =
      some (hashOne (c.store fs argsKw n1) fs argsKw n2 p)
    have h1 : lookupHash (freshHashes c fs argsKw n1) p =
        some (hashOne c fs argsKw n1 p) :=
      lookup_map_self (hashOne c fs argsKw n1) (trackedPaths c) p hp
    have hsame : hashOne c fs argsKw n1 p = hashOne c fs argsKw n2 p := by
      unfold hashOne
      obtain ⟨st, hst⟩ := Option.isSome_iff_exists.mp (hex p hp)
      rw [hst]
    exact hsame ▸ h1

lemma store_check_false_of_mutation (c : Checkpoint) (fs fs2 : FileSys)
    (argsKw : String) (n1 n2 : Nat) (p0 : String) (st0 : FileStat)
    (hp0 : p0 ∈ trackedPaths c)
    (hst0 : statOf fs p0 = some st0)
    (hmut : statOf fs2 p0 = none ∨
      ∃ st2, statOf fs2 p0 = some st2 ∧ st2 ≠ st0) :
    (c.store fs argsKw n1).check fs2 argsKw n2 = false := by
  rw [Bool.eq_false_iff]
  intro hcheck
  rw [check_iff (c.store fs argsKw n1) fs2 argsKw n2
    (freshHashes c fs argsKw n1) (store_cache c fs argsKw n1)] at hcheck
  obtain ⟨-, -, h3⟩ := hcheck
  have hmem : (p0, hashOne c fs2 argsKw n2 p0) ∈
      freshHashes (c.store fs argsKw n1) fs2 argsKw n2 :=
    List.mem_map_of_mem _ hp0
  have hlk := h3 _ hmem
  have hlk2 : lookupHash (freshHashes c fs argsKw n1) p0 =
      some (hashOne c fs argsKw n1 p0) :=
    lookup_map_self (hashOne c fs argsKw n1) (trackedPaths c) p0 hp0
  rw [hlk2] at hlk
  have heq : hashOne c fs argsKw n1 p0 = hashOne c fs2 argsKw n2 p0 :=
    Option.some.inj hlk
  unfold hashOne at heq
  rw [hst0] at heq
  cases hmut with
  | inl hnone =>
    rw [hnone] at heq
    exact PHash.noConfusion heq
  | inr hsome =>
    obtain ⟨st2, hst2, hne⟩ := hsome
    rw [hst2] at heq
    injection heq with h1 h2 h3 h4 h5
    apply hne
    cases st0
    cases st2
    simp_all

end Cellophane

namespace Cellophane

/-- C4: with every tracked path existing, store followed by check with the
same arguments and unchanged sizes and second-truncated mtimes returns
true; after mutating any tracked path (size or truncated mtime changed, or
the path removed) check returns false; and in general check is true iff a
persisted map exists, its key set equals the current tracked path set, and
every persisted per-path fingerprint equals the freshly computed one. -/
theorem claim_C4 :
    (∀ (c : Checkpoint) (fs : FileSys) (argsKw : String) (n1 n2 : Nat),
      (∀ p ∈ trackedPaths c, (statOf fs p).isSome) →
      (c.store fs argsKw n1).check fs argsKw n2 = true) ∧
    (∀ (c : Checkpoint) (fs fs2 : FileSys) (argsKw : String) (n1 n2 : Nat)
      (p0 : String) (st0 : FileStat),
      p0 ∈ trackedPaths c → statOf fs p0 = some st0 →
      (statOf fs2 p0 = none ∨
        ∃ st2, statOf fs2 p0 = some st2 ∧ st2 ≠ st0) →
      (c.store fs argsKw n1).check fs2 argsKw n2 = false) ∧
    (∀ (c : Checkpoint) (fs : FileSys) (argsKw : String) (n : Nat)
      (m : List (String × PHash)), c.cache = some m →
      (c.check fs argsKw n = true ↔
        ((∀ e ∈ m, e.1 ∈ trackedPaths c) ∧
         (∀ p ∈ trackedPaths c, ∃ e ∈ m, e.1 = p) ∧
         (∀ fh ∈ freshHashes c fs argsKw n,
           lookupHash m fh.1 = some fh.2)))) :=
  ⟨store_check_true, store_check_false_of_mutation, check_iff⟩

lemma wCp_trackedPaths : trackedPaths wCp = ["d/f1", "d/f2"] := by
  simp [trackedPaths, wCp, pyDedup_cons, pyDedup_nil, List.filter]

/-- C4 witness: store and check evaluated on a concrete checkpoint and
filesystem, both for the unchanged and for a mutated filesystem. -/
theorem claim_C4_witness :
    (wCp.store wFs "args" 0).check wFs "args" 1 = true ∧
    (wCp.store wFs "args" 0).check wFs2 "args" 1 = false :=
  ⟨claim_C4.1 wCp wFs "args" 0 1
    (by
      intro p hp
      rw [wCp_trackedPaths] at hp
      rcases List.mem_cons.mp hp with rfl | hp2
      · decide
      · rcases List.mem_cons.mp hp2 with rfl | hp3
        · decide
        · cases hp3),
    claim_C4.2.1 wCp wFs wFs2 "args" 0 1 "d/f2" { size := 20, mtimeSec := 200 }
      (by rw [wCp_trackedPaths]; decide)
      (by decide)
      (Or.inr ⟨{ size := 21, mtimeSec := 200 }, by decide, by decide⟩)⟩

end Cellophane

/-! ## Claim C3: runner failure reasons -/

namespace Cellophane

lemma refail_map (d : List Sample) (r : String) :
    (d.map fun s => s.failWith r).map
      (fun s =>
        if !s.processed && s.fail.isNone then
          s.failWith "Sample was not processed"
        else s) =
      d.map fun s => s.failWith r := by
  rw [List.map_map]
  apply List.map_congr_left
  intro s _
  simp [Sample.failWith]

/-- C3 counterexample: evaluated at a concrete interrupted runner, every
sample ends with the reason the code builds, and for each of the three
abnormal paths that string differs from the one the claim states (missing
"was", the "exitded" typo, and a missing colon before the repr). -/
theorem claim_C3_cx :
    (runnerCall "r" .interrupt noRes wRun).data.map Sample.fail =
      [some (reasonInterrupted "r")] ∧
    reasonInterrupted "r" ≠ specReasonInterrupted "r" ∧
    reasonExited "r" (some 1337) ≠ specReasonExited "r" 1337 ∧
    reasonUnhandled "r" "Exception" ≠ specReasonUnhandled "r" "Exception" := by
  refine ⟨by decide, by decide, by decide, by decide⟩

/-- C3 amended: when a runner main terminates abnormally, every sample of
the runner subset ends with the contextual reason the code builds:
"Runner '<name>' interrupted" on cooperative interrupt,
"Runner '<name>' exitded with non-zero status(<code>)" on SystemExit (the
parenthesised code omitted when it is None), and
"Unhandled exception in runner '<name>' <repr>" on any other exception;
in all three paths the executor is terminated and the declared outputs are
cleared. -/
theorem claim_C3 (name : String) (res : OutputGlob → List Output)
    (samples : SamplesC) :
    ((runnerCall name .interrupt res samples).data =
        (samples.data.map fun s => s.failWith (reasonInterrupted name)) ∧
      (runnerCall name .interrupt res samples).output = [] ∧
      (runnerCall name .interrupt res samples).executorTerminated = true) ∧
    (∀ code : Option Int,
      (runnerCall name (.sysExit code) res samples).data =
        (samples.data.map fun s => s.failWith (reasonExited name code)) ∧
      (runnerCall name (.sysExit code) res samples).output = [] ∧
      (runnerCall name (.sysExit code) res samples).executorTerminated = true) ∧
    (∀ rep : String,
      (runnerCall name (.exc rep) res samples).data =
        (samples.data.map fun s => s.failWith (reasonUnhandled name rep)) ∧
      (runnerCall name (.exc rep) res samples).output = [] ∧
      (runnerCall name (.exc rep) res samples).executorTerminated = true) := by
  refine ⟨⟨?_, rfl, rfl⟩, fun code => ⟨?_, rfl, rfl⟩, fun rep => ⟨?_, rfl, rfl⟩⟩
  · exact refail_map samples.data (reasonInterrupted name)
  · exact refail_map samples.data (reasonExited name code)
  · exact refail_map samples.data (reasonUnhandled name rep)

end Cellophane

/-! ## Claim C6: pre-hook condition gating -/

namespace Cellophane

/-- C6 counterexample: in the per-runner path (run_hooks), a pre-hook with
condition unprocessed is invoked on the whole subset even though the
unprocessed slice is empty, where the claim requires it to be skipped and
otherwise to see exactly samples.unprocessed. -/
theorem claim_C6_cx :
    (runHooksR [hU] .pre .runner [wProc]).1 = [("hU", [wProc])] ∧
    unprocessedSlice [wProc] = [] := by
  exact ⟨rfl, rfl⟩

/-- C6 amended: in the dispatcher (per-session) path an always pre-hook is
invoked unconditionally on the whole set; an unprocessed hook is invoked on
exactly samples.unprocessed when that slice is nonempty, skipped when the
input is nonempty but the slice is empty, and invoked on the empty input
set itself when the input is empty; a failed hook is invoked on exactly
samples.failed and skipped when that slice is empty.  In the per-runner
path (run_hooks) the condition of a pre-hook is ignored: it is always
invoked on the whole threaded subset. -/
theorem claim_C6 :
    (∀ (samples_ : List Sample) (h : HookD),
      (h.condition = .always →
        dispatchHookStep samples_ h =
          (some (h.name, samples_), pyOrData samples_ (h.func samples_))) ∧
      (h.condition = .unprocessed →
        dispatchHookStep samples_ h =
          (if samples_.length = 0 then
            (some (h.name, samples_), pyOrData samples_ (h.func samples_))
          else if (unprocessedSlice samples_).isEmpty then (none, samples_)
          else
            (some (h.name, unprocessedSlice samples_),
              pyOrData samples_ (h.func (unprocessedSlice samples_))))) ∧
      (h.condition = .failed →
        dispatchHookStep samples_ h =
          (if (failedSlice samples_).isEmpty then (none, samples_)
          else
            (some (h.name, failedSlice samples_),
              pyOrData samples_ (h.func (failedSlice samples_)))))) ∧
    (∀ (samples samples_ : List Sample) (h : HookD), h.hwhen = .pre →
      runHooksStepR samples samples_ h =
        (some (h.name, samples_), h.func samples_)) := by
  constructor
  · intro samples_ h
    refine ⟨fun hc => ?_, fun hc => ?_, fun hc => ?_⟩
    · unfold dispatchHookStep dispatcherGate
      rw [hc]
    · unfold dispatchHookStep dispatcherGate
      rw [hc]
      by_cases hlen : samples_.length = 0
      · rw [if_pos hlen, if_pos hlen]
      · rw [if_neg hlen, if_neg hlen]
        by_cases hemp : (unprocessedSlice samples_).isEmpty
        · rw [if_pos hemp, if_pos hemp]
        · rw [if_neg hemp, if_neg hemp]
    · unfold dispatchHookStep dispatcherGate
      rw [hc]
      by_cases hemp : (failedSlice samples_).isEmpty
      · rw [if_pos hemp, if_pos hemp]
      · rw [if_neg hemp, if_neg hemp]
  · intro samples samples_ h hw
    unfold runHooksStepR
    rw [if_pos (by simp [hw])]

/-- C6 witness: the amended dispatcher gating evaluated at concrete inputs
(an unprocessed hook on a processed singleton is skipped), and the
per-runner path invoking a pre-hook regardless of its condition. -/
theorem claim_C6_witness :
    dispatchHookStep [wProc] hU = (none, [wProc]) ∧
    runHooksStepR [wProc] [wProc] hU = (some ("hU", [wProc]), [wProc]) := by
  constructor
  · have h := ((claim_C6.1 [wProc] hU).2.1) rfl
    rw [h]
    rfl
  · have h := claim_C6.2 [wProc] [wProc] hU rfl
    rw [h]
    rfl

end Cellophane

/-! ## Claim C8: per-sample post-hook firing -/

namespace Cellophane

lemma rcSubmit_counts (u : Nat) :
    ∀ (js : List Nat) (st : RCState),
      (rcSubmit st js).counts u = st.counts u + (js.count u : Int) := by
  intro js
  induction js with
  | nil => intro st; simp [rcSubmit]
  | cons v rest ih =>
    intro st
    show (rcSubmit (rcIncOne st v) rest).counts u = _
    rw [ih (rcIncOne st v), List.count_cons]
    show (if u = v then st.counts u + 1 else st.counts u) + _ = _
    by_cases hv : u = v
    · rw [if_pos hv, if_pos (by simpa using hv.symm)]
      push_cast
      omega
    · rw [if_neg hv, if_neg (by simpa using fun h => hv h.symm)]
      push_cast
      omega

lemma rcSubmit_fired :
    ∀ (js : List Nat) (st : RCState),
      (rcSubmit st js).fired = st.fired := by
  intro js
  induction js with
  | nil => intro st; rfl
  | cons v rest ih =>
    intro st
    show (rcSubmit (rcIncOne st v) rest).fired = _
    rw [ih]
    rfl

lemma subs_state (u : Nat) :
    ∀ (jobs : List (List Nat)) (st : RCState),
      (((jobs.map RunnerEv.sub).foldl rcStep st).counts u =
        st.counts u + ((jobs.map fun js => (js.count u : Int)).sum)) ∧
      ((jobs.map RunnerEv.sub).foldl rcStep st).fired = st.fired := by
  intro jobs
  induction jobs with
  | nil => intro st; simp
  | cons js rest ih =>
    intro st
    constructor
    · show ((rest.map RunnerEv.sub).foldl rcStep (rcSubmit st js)).counts u = _
      rw [(ih (rcSubmit st js)).1, rcSubmit_counts u js st]
      simp [add_assoc]
    · show ((rest.map RunnerEv.sub).foldl rcStep (rcSubmit st js)).fired = _
      rw [(ih (rcSubmit st js)).2, rcSubmit_fired js st]

lemma rcDec_noTouch (u : Nat) :
    ∀ (js : List Nat) (st : RCState), u ∉ js →
      (rcCallback st js).counts u = st.counts u ∧
      (rcCallback st js).fired.count u = st.fired.count u := by
  intro js
  induction js with
  | nil => intro st _; exact ⟨rfl, rfl⟩
  | cons v rest ih =>
    intro st hu
    have hvu : v ≠ u := fun h => hu (h ▸ List.mem_cons_self v rest)
    have huv : ¬u = v := fun h => hvu h.symm
    have hrest : u ∉ rest := fun h => hu (List.mem_cons_of_mem v h)
    have h1 : (rcDecOne st v).counts u = st.counts u := by
      unfold rcDecOne
      simp [huv]
    have h2 : (rcDecOne st v).fired.count u = st.fired.count u := by
      unfold rcDecOne
      by_cases hz : st.counts v - 1 = 0
      · simp only [hz, if_pos]
        rw [List.count_append]
        have hc1 : [v].count u = 0 := by
          simp [List.count_singleton, huv]
        omega
      · simp [hz]
    obtain ⟨ih1, ih2⟩ := ih (rcDecOne st v) hrest
    exact ⟨by rw [show rcCallback st (v :: rest) =
        rcCallback (rcDecOne st v) rest from rfl, ih1, h1],
      by rw [show rcCallback st (v :: rest) =
        rcCallback (rcDecOne st v) rest from rfl, ih2, h2]⟩

lemma rcCallback_mem (u : Nat) (js : List Nat) (st : RCState)
    (hnd : js.Nodup) (hu : u ∈ js) :
    (rcCallback st js).counts u = st.counts u - 1 ∧
    (rcCallback st js).fired.count u =
      st.fired.count u + (if st.counts u - 1 = 0 then 1 else 0) := by
  induction js generalizing st with
  | nil => cases hu
  | cons v rest ih =>
    have hstep : rcCallback st (v :: rest) = rcCallback (rcDecOne st v) rest :=
      rfl
    by_cases hvu : v = u
    · subst hvu
      have hrest : v ∉ rest := (List.nodup_cons.mp hnd).1
      obtain ⟨h1, h2⟩ := rcDec_noTouch v rest (rcDecOne st v) hrest
      rw [hstep, h1, h2]
      constructor
      · unfold rcDecOne
        simp
      · unfold rcDecOne
        by_cases hz : st.counts v - 1 = 0
        · simp only [hz, if_pos, ite_true]
          rw [List.count_append]
          simp [List.count_singleton]
        · simp [hz]
    · have huv : ¬u = v := fun h => hvu h.symm
      have hu2 : u ∈ rest := by
        cases List.mem_cons.mp hu with
        | inl h => exact absurd h huv
        | inr h => exact h
      have hcnt : (rcDecOne st v).counts u = st.counts u := by
        unfold rcDecOne
        simp [huv]
      have hfir : (rcDecOne st v).fired.count u = st.fired.count u := by
        unfold rcDecOne
        by_cases hz : st.counts v - 1 = 0
        · simp only [hz, if_pos, ite_true]
          rw [List.count_append]
          have hc1 : [v].count u = 0 := by
            simp [List.count_singleton, huv]
          omega
        · simp [hz]
      obtain ⟨ih1, ih2⟩ := ih (rcDecOne st v) (List.Nodup.of_cons hnd) hu2
      rw [hstep, ih1, ih2, hcnt, hfir]
      exact ⟨rfl, rfl⟩

lemma cbs_fired (u : Nat) :
    ∀ (cbs : List (List Nat)) (st : RCState),
      (∀ js ∈ cbs, js.Nodup) →
      st.counts u = (cbs.countP fun js => decide (u ∈ js) : Int) →
      ((cbs.map RunnerEv.cb).foldl rcStep st).fired.count u =
        st.fired.count u +
          (if 0 < cbs.countP (fun js => decide (u ∈ js)) then 1 else 0) := by
  intro cbs
  induction cbs with
  | nil => intro st _ _; simp
  | cons js rest ih =>
    intro st hnd hcnt
    have hstep : ((js :: rest).map RunnerEv.cb).foldl rcStep st =
        (rest.map RunnerEv.cb).foldl rcStep (rcCallback st js) := rfl
    by_cases hu : u ∈ js
    · have hC : (js :: rest).countP (fun js => decide (u ∈ js)) =
          rest.countP (fun js => decide (u ∈ js)) + 1 := by
        rw [List.countP_cons]
        simp [hu]
      obtain ⟨h1, h2⟩ :=
        rcCallback_mem u js st (hnd js (List.mem_cons_self js rest)) hu
      have hcnt2 : (rcCallback st js).counts u =
          (rest.countP fun js => decide (u ∈ js) : Int) := by
        rw [h1, hcnt, hC]
        push_cast
        omega
      rw [hstep, ih (rcCallback st js)
        (fun j hj => hnd j (List.mem_cons_of_mem js hj)) hcnt2, h2, hC]
      have hz : (st.counts u - 1 = 0) ↔
          (rest.countP fun js => decide (u ∈ js)) = 0 := by
        rw [hcnt, hC]
        constructor
        · intro h
          omega
        · intro h
          rw [h]
          simp
      by_cases hr : (rest.countP fun js => decide (u ∈ js)) = 0
      · rw [if_pos (hz.mpr hr), hr]
        simp
      · have h01 : 0 < rest.countP fun js => decide (u ∈ js) :=
          Nat.pos_of_ne_zero hr
        rw [if_neg fun hc => hr (hz.mp hc), if_pos h01, if_pos (Nat.succ_pos _)]
    · have hC : (js :: rest).countP (fun js => decide (u ∈ js)) =
          rest.countP (fun js => decide (u ∈ js)) := by
        rw [List.countP_cons]
        simp [hu]
      obtain ⟨h1, h2⟩ := rcDec_noTouch u js st hu
      rw [hstep, ih (rcCallback st js)
        (fun j hj => hnd j (List.mem_cons_of_mem js hj))
        (by rw [h1, hcnt, hC]), h2, hC]

end Cellophane

namespace Cellophane

lemma sum_counts_eq_countP (u : Nat) :
    ∀ jobs : List (List Nat), (∀ js ∈ jobs, js.Nodup) →
      ((jobs.map fun js => (js.count u : Int)).sum =
        (jobs.countP fun js => decide (u ∈ js) : Int)) := by
  intro jobs
  induction jobs with
  | nil => intro _; simp
  | cons js rest ih =>
    intro hnd
    rw [List.map_cons, List.sum_cons, List.countP_cons,
      ih fun j hj => hnd j (List.mem_cons_of_mem js hj)]
    by_cases hu : u ∈ js
    · have h1 : js.count u = 1 :=
        List.count_eq_one_of_mem (hnd js (List.mem_cons_self js rest)) hu
      rw [h1]
      simp [hu]
      omega
    · have h0 : js.count u = 0 := List.count_eq_zero_of_not_mem hu
      rw [h0]
      simp [hu]

/-- C8 counterexample: a schedule the unsynchronised code admits (the first
runner callback runs before the second runner for the same sample is
submitted) fires the per-sample post-hook twice for a sample touched by two
runners, refuting the exactly-once claim. -/
theorem claim_C8_cx :
    rcFireCount
      [RunnerEv.sub [0], RunnerEv.cb [0], RunnerEv.sub [0], RunnerEv.cb [0]]
      0 = 2 ∧
    rcFireCount
      [RunnerEv.sub [0], RunnerEv.cb [0], RunnerEv.sub [0], RunnerEv.cb [0]]
      0 ≠ 1 := by
  exact ⟨rfl, by decide⟩

/-- C8 amended: when every runner callback happens after all submissions
have incremented the reference counts (the schedule the dispatcher relies
on), each uuid fires exactly once if some runner subset contained it and
never otherwise; the increments are not protected against callbacks that
complete before a later submission, so the exactly-once property only holds
for such schedules. -/
theorem claim_C8 (jobs cbs : List (List Nat)) (hperm : cbs.Perm jobs)
    (hnd : ∀ js ∈ jobs, js.Nodup) (u : Nat) :
    rcFireCount (jobs.map RunnerEv.sub ++ cbs.map RunnerEv.cb) u =
      if jobs.any (fun js => decide (u ∈ js)) then 1 else 0 := by
  unfold rcFireCount rcRun
  rw [List.foldl_append]
  have hsub := subs_state u jobs { counts := fun _ => 0, fired := [] }
  have hndcb : ∀ js ∈ cbs, js.Nodup := fun js hjs =>
    hnd js (hperm.mem_iff.mp hjs)
  have hcountP : cbs.countP (fun js => decide (u ∈ js)) =
      jobs.countP (fun js => decide (u ∈ js)) :=
    hperm.countP_eq _
  have hcnt : ((jobs.map RunnerEv.sub).foldl rcStep
      { counts := fun _ => 0, fired := [] }).counts u =
      (cbs.countP fun js => decide (u ∈ js) : Int) := by
    rw [hsub.1, sum_counts_eq_countP u jobs hnd, hcountP]
    simp
  rw [cbs_fired u cbs _ hndcb hcnt, hsub.2]
  simp only [List.count_nil, Nat.zero_add, hcountP]
  by_cases hany : jobs.any (fun js => decide (u ∈ js)) = true
  · rw [if_pos hany, if_pos]
    rw [List.countP_pos_iff]
    obtain ⟨js, hjs, hujs⟩ := List.any_eq_true.mp hany
    exact ⟨js, hjs, hujs⟩
  · rw [if_neg hany, if_neg]
    intro hpos
    apply hany
    obtain ⟨js, hjs, hujs⟩ := List.countP_pos_iff.mp hpos
    exact List.any_eq_true.mpr ⟨js, hjs, hujs⟩

/-- C8 witness: two runners touching the same sample, all submissions
before any callback: the hook fires exactly once. -/
theorem claim_C8_witness :
    rcFireCount
      [RunnerEv.sub [0], RunnerEv.sub [0], RunnerEv.cb [0], RunnerEv.cb [0]]
      0 = if [[0], [0]].any (fun js => decide ((0 : Nat) ∈ js)) then 1 else 0 :=
  claim_C8 [[0], [0]] [[0], [0]] (by decide) (by decide) 0

end Cellophane

/-! ## Claim C5: hook dependency resolution -/

namespace Cellophane

lemma beforeF_afterF_default : ∀ (fuel : Nat) (hooks : List Hook5),
    beforeF fuel defaultHook5 hooks = .error .recursionErr ∧
    afterF fuel defaultHook5 hooks = .error .recursionErr := by
  intro fuel
  induction fuel with
  | zero => intro hooks; exact ⟨by simp [beforeF], by simp [afterF]⟩
  | succ n ih =>
    intro hooks
    constructor
    · have h := (ih hooks).2
      simp only [defaultHook5] at h
      simp [beforeF, beforeLoop, defaultHook5, h, Bind.bind, Except.bind]
    · have h := (ih hooks).1
      simp only [defaultHook5] at h
      simp [afterF, afterLoop, defaultHook5, h, Bind.bind, Except.bind]

lemma insertNS_default (fuel : Nat) :
    insertNeighborStagesF fuel [defaultHook5] = .error .recursionErr := by
  unfold insertNeighborStagesF
  rw [List.mapM_cons]
  have h := (beforeF_afterF_default fuel [defaultHook5]).1
  simp [h, Bind.bind, Except.bind]

/-- C5: the dependency resolver of the sources can never return an order,
nor raise CycleError, for any hook list containing a hook without
dependency declarations (the default): normalisation of (None, None) gives
empty before/after lists, and on such a hook the neighbour-stage helpers
before() and after() call each other with no base case, so
resolve_dependencies exhausts the recursion limit (RecursionError) at any
depth, contradicting both its own docstring and the integration tests that
run default hooks. -/
theorem claim_C5 :
    updateBAF 1 [] [] .pre = .ok ([], []) ∧
    (∀ fuel : Nat,
      resolveDependenciesF fuel [defaultHook5] = .error .recursionErr) := by
  constructor
  · rfl
  · intro fuel
    unfold resolveDependenciesF
    rw [insertNS_default fuel]
    rfl

end Cellophane
